import Mathlib

/-! Audio_Plugin: the order hand-off and the processing chain.

A shallow embedding of `Source/PluginProcessor.h` and `Source/PluginProcessor.cpp`.
The processor owns four effect slots, an active `DSP_Order`, and a FIFO through which the
editor publishes new orders.  `processBlock` clears surplus output channels, drains the FIFO
to its latest entry, adopts it, resolves the order to slot pointers and runs the slots in
sequence.
-/

namespace AudioPlugin

/-! ## Data model (`PluginProcessor.h`) -/

/-- The enumeration `DSP_Option` (`PluginProcessor.h`, lines 69-75). -/
inductive DSP_Option where
  | Phase
  | Chorus
  | OverDrive
  | LadderFilter
  | END_OF_LIST
  deriving DecidableEq, Repr, Fintype

/-- The alias `DSP_Order = std::array<DSP_Option, static_cast<size_t>(END_OF_LIST)>`: an array of
four enumerators (line 80). -/
abbrev DSP_Order := Fin 4 → DSP_Option

/-- The value-initialised array `DSP_Order()`: every element is the enumerator of value zero. -/
def DSP_Order.valueInit : DSP_Order := fun _ => DSP_Option.Phase

/-- An order is a permutation of the four real kinds when each of them occurs exactly once. -/
def DSP_Order.isPermutation (o : DSP_Order) : Prop :=
  ∀ k : DSP_Option, k ≠ DSP_Option.END_OF_LIST → (List.ofFn o).count k = 1

instance (o : DSP_Order) : Decidable o.isPermutation := by
  unfold DSP_Order.isPermutation; infer_instance

/-- No entry of the order is the terminal marker `END_OF_LIST`. -/
def DSP_Order.allReal (o : DSP_Order) : Prop :=
  ∀ i : Fin 4, o i ≠ DSP_Option.END_OF_LIST

instance (o : DSP_Order) : Decidable o.allReal := by
  unfold DSP_Order.allReal; infer_instance

/-- Modelled from the spec: `SimpleMBComp::Fifo` (`Fifo.h`, a submodule header that is not among
the sources).  A bounded queue: `items` holds the pending entries, oldest first. -/
structure Fifo (T : Type) where
  capacity : Nat
  items : List T
  deriving DecidableEq, Repr

/-- Modelled from the spec: `Fifo::push` of the missing `Fifo.h`.  Enqueues and returns true, or,
when the queue is full, returns false and changes nothing. -/
def Fifo.push {T : Type} (f : Fifo T) (t : T) : Bool × Fifo T :=
  if f.items.length < f.capacity then (true, { f with items := f.items ++ [t] }) else (false, f)

/-- Modelled from the spec: `Fifo::pull` of the missing `Fifo.h`.  With an entry available it
removes the oldest one, stores it in the out parameter and returns true; otherwise it returns
false and leaves the out parameter untouched. -/
def Fifo.pull {T : Type} (f : Fifo T) (t : T) : Bool × Fifo T × T :=
  match f.items with
  | [] => (false, f, t)
  | x :: rest => (true, { f with items := rest }, x)

/-- Modelled from the spec: `juce::AudioBuffer<float>`, a JUCE library type.  A block of
`nc` channels by `ns` samples; the sample type is kept abstract. -/
abbrev AudioBuffer (α : Type) (nc ns : Nat) := Fin nc → Fin ns → α

/-- Modelled from the spec: `AudioBuffer::getNumSamples`. -/
def AudioBuffer.getNumSamples {α : Type} {nc ns : Nat} (_ : AudioBuffer α nc ns) : Nat := ns

/-- Modelled from the spec: `AudioBuffer::clear (channel, startSample, numSamples)`, which sets a
region of one channel to silence. -/
def AudioBuffer.clear {α : Type} [Zero α] {nc ns : Nat} (b : AudioBuffer α nc ns)
    (channel startSample numSamples : Nat) : AudioBuffer α nc ns :=
  fun c k =>
    if c.val = channel ∧ startSample ≤ k.val ∧ k.val < startSample + numSamples then 0 else b c k

/-- Modelled from the spec: `juce::dsp::ProcessSpec`, the configuration handed to `prepare`. -/
structure ProcessSpec where
  sampleRate : ℚ
  maximumBlockSize : Nat
  numChannels : Nat
  deriving DecidableEq

/-- Modelled from the spec: the contract of a JUCE DSP module (`juce::dsp::Phaser`, `Chorus`,
`LadderFilter`, `DelayLine`): a default-constructed state and the three operations
`prepare`, `process` (in place on the block) and `reset`.  The algorithms are black boxes. -/
class DspModule (D : Type) (α : outParam Type) where
  init : D
  prepare : ProcessSpec → D → D
  process : {nc ns : Nat} → D → AudioBuffer α nc ns → D × AudioBuffer α nc ns
  reset : D → D

/-- The wrapper `DSP_Choice<DSP_Type>` (lines 109-127): it owns one module instance `dsp`. -/
structure DSP_Choice (DSP_Type : Type) where
  dsp : DSP_Type
  deriving DecidableEq, Repr

/-- `DSP_Choice::prepare` forwards to `dsp.prepare (spec)`. -/
def DSP_Choice.prepare {D α : Type} [DspModule D α] (c : DSP_Choice D) (spec : ProcessSpec) :
    DSP_Choice D :=
  { dsp := DspModule.prepare spec c.dsp }

/-- `DSP_Choice::process` forwards to `dsp.process (context)`; the context replaces the block in
place, so the call returns the new module state and the new block. -/
def DSP_Choice.process {D α : Type} [DspModule D α] {nc ns : Nat} (c : DSP_Choice D)
    (context : AudioBuffer α nc ns) : DSP_Choice D × AudioBuffer α nc ns :=
  ({ dsp := (DspModule.process c.dsp context).1 }, (DspModule.process c.dsp context).2)

/-- `DSP_Choice::reset` forwards to `dsp.reset ()`. -/
def DSP_Choice.reset {D α : Type} [DspModule D α] (c : DSP_Choice D) : DSP_Choice D :=
  { dsp := DspModule.reset c.dsp }

/-- The members of the processor a `ProcessorBase*` of `processBlock` can point to. -/
inductive SlotRef where
  | phaser
  | chorus
  | overdrive
  | ladderFilter
  deriving DecidableEq, Repr, Fintype

/-- The effect kind a slot is kept for. -/
def SlotRef.kind : SlotRef → DSP_Option
  | .phaser => DSP_Option.Phase
  | .chorus => DSP_Option.Chorus
  | .overdrive => DSP_Option.OverDrive
  | .ladderFilter => DSP_Option.LadderFilter

/-- A value of type `juce::dsp::ProcessorBase*`: the content of an element that was never
written, the null pointer, or the address of one of the slots. -/
inductive ProcessorBasePtr where
  | indeterminate
  | null
  | addr (m : SlotRef)
  deriving DecidableEq, Repr

/-- The alias `DSP_Pointers = std::array<ProcessorBase*, 4>` (line 143). -/
abbrev DSP_Pointers := Fin 4 → ProcessorBasePtr

/-- The state of `Audio_PluginAudioProcessor`: the bus channel counts kept by the base class,
the order FIFO, the active order and the five wrapped modules (lines 82, 107, 138-141). -/
structure Audio_PluginAudioProcessor (Ph Dl Ch Lf : Type) where
  totalNumInputChannels : Nat
  totalNumOutputChannels : Nat
  dspOrderFifo : Fifo DSP_Order
  dspOrder : DSP_Order
  phaser : DSP_Choice Ph
  delay : DSP_Choice Dl
  chorus : DSP_Choice Ch
  overdrive : DSP_Choice Lf
  ladderFilter : DSP_Choice Lf

/-! ## Operations (`PluginProcessor.cpp`) -/

section Operations

variable {Ph Dl Ch Lf α : Type}
variable [DspModule Ph α] [DspModule Ch α] [DspModule Lf α]

/-- The constructor (lines 13-25): it declares a stereo input and a stereo output bus and has an
empty body.  Every member is default-constructed: the FIFO is empty and the modules are in their
initial state.  `dspOrder` has no initialiser, so it keeps whatever its storage held, given
here as `uninitialised`. -/
def Audio_PluginAudioProcessor.construct [DspModule Dl α] (uninitialised : DSP_Order)
    (fifoCapacity : Nat) :
    Audio_PluginAudioProcessor Ph Dl Ch Lf :=
  { totalNumInputChannels := 2
    totalNumOutputChannels := 2
    dspOrderFifo := { capacity := fifoCapacity, items := [] }
    dspOrder := uninitialised
    phaser := { dsp := DspModule.init }
    delay := { dsp := DspModule.init }
    chorus := { dsp := DspModule.init }
    overdrive := { dsp := DspModule.init }
    ladderFilter := { dsp := DspModule.init } }

/-- The method `prepareToPlay` (lines 94-98): its body is empty. -/
def Audio_PluginAudioProcessor.prepareToPlay (s : Audio_PluginAudioProcessor Ph Dl Ch Lf)
    (_sampleRate : ℚ) (_samplesPerBlock : Int) : Audio_PluginAudioProcessor Ph Dl Ch Lf :=
  s

/-- The method `releaseResources` (lines 100-104): its body is empty. -/
def Audio_PluginAudioProcessor.releaseResources (s : Audio_PluginAudioProcessor Ph Dl Ch Lf) :
    Audio_PluginAudioProcessor Ph Dl Ch Lf :=
  s

/-- The control surface publishes an order: `dspOrderFifo.push (order)` on the public member. -/
def Audio_PluginAudioProcessor.pushOrder (s : Audio_PluginAudioProcessor Ph Dl Ch Lf)
    (order : DSP_Order) : Audio_PluginAudioProcessor Ph Dl Ch Lf :=
  { s with dspOrderFifo := (s.dspOrderFifo.push order).2 }

/-- Several orders published one after the other, with no `processBlock` in between. -/
def Audio_PluginAudioProcessor.pushOrders (s : Audio_PluginAudioProcessor Ph Dl Ch Lf)
    (orders : List DSP_Order) : Audio_PluginAudioProcessor Ph Dl Ch Lf :=
  orders.foldl Audio_PluginAudioProcessor.pushOrder s

/-- The virtual call `p->process (context)` on the slot `p` points to: the slot's module state
and the block are both replaced. -/
def Audio_PluginAudioProcessor.callProcess {nc ns : Nat} (m : SlotRef)
    (s : Audio_PluginAudioProcessor Ph Dl Ch Lf) (context : AudioBuffer α nc ns) :
    Audio_PluginAudioProcessor Ph Dl Ch Lf × AudioBuffer α nc ns :=
  match m with
  | .phaser => ({ s with phaser := (s.phaser.process context).1 }, (s.phaser.process context).2)
  | .chorus => ({ s with chorus := (s.chorus.process context).1 }, (s.chorus.process context).2)
  | .overdrive =>
      ({ s with overdrive := (s.overdrive.process context).1 }, (s.overdrive.process context).2)
  | .ladderFilter =>
      ({ s with ladderFilter := (s.ladderFilter.process context).1 },
        (s.ladderFilter.process context).2)

/-- Lines 135-145 of `processBlock`: every channel from `totalNumInputChannels` up to, but not
including, `totalNumOutputChannels` is cleared over its whole length. -/
def Audio_PluginAudioProcessor.clearExtraChannels [Zero α] {nc ns : Nat}
    (s : Audio_PluginAudioProcessor Ph Dl Ch Lf) (buffer : AudioBuffer α nc ns) :
    AudioBuffer α nc ns :=
  (List.Ico s.totalNumInputChannels s.totalNumOutputChannels).foldl
    (fun b i => b.clear i 0 b.getNumSamples) buffer

/-- Lines 149-156 of `processBlock`: `while (dspOrderFifo.pull (newDSPOrder)) {}`.  The loop
ends at the first pull that returns false. -/
def drainLoop (fifo : Fifo DSP_Order) (newDSPOrder : DSP_Order) : Fifo DSP_Order × DSP_Order :=
  if h : (fifo.pull newDSPOrder).1 = true then
    have _hless : (fifo.pull newDSPOrder).2.1.items.length < fifo.items.length := by
      unfold Fifo.pull at h ⊢
      split at h
      · simp at h
      · next x rest hx => simp [hx]
    drainLoop (fifo.pull newDSPOrder).2.1 (fifo.pull newDSPOrder).2.2
  else
    ((fifo.pull newDSPOrder).2.1, (fifo.pull newDSPOrder).2.2)
termination_by fifo.items.length

/-- Lines 147-160 of `processBlock`: start from `DSP_Order ()`, drain the FIFO keeping the last
value pulled, and install it as `dspOrder` when it differs from `DSP_Order ()`. -/
def Audio_PluginAudioProcessor.adoptLatestOrder (s : Audio_PluginAudioProcessor Ph Dl Ch Lf) :
    Audio_PluginAudioProcessor Ph Dl Ch Lf :=
  let newDSPOrder := DSP_Order.valueInit
  let drained := drainLoop s.dspOrderFifo newDSPOrder
  let s1 := { s with dspOrderFifo := drained.1 }
  if drained.2 ≠ DSP_Order.valueInit then { s1 with dspOrder := drained.2 } else s1

/-- The body of the resolve loop (lines 169-186): the switch on `dspOrder[i]` stores the address
of the matching slot in `dspPointers[i]`.  The `END_OF_LIST` case only asserts (`jassertfalse`,
which does nothing in a release build) and writes nothing. -/
def resolveStep (dspOrder : DSP_Order) (dspPointers : DSP_Pointers) (i : Fin 4) : DSP_Pointers :=
  match dspOrder i with
  | .Phase => Function.update dspPointers i (ProcessorBasePtr.addr SlotRef.phaser)
  | .Chorus => Function.update dspPointers i (ProcessorBasePtr.addr SlotRef.chorus)
  | .OverDrive => Function.update dspPointers i (ProcessorBasePtr.addr SlotRef.overdrive)
  | .LadderFilter => Function.update dspPointers i (ProcessorBasePtr.addr SlotRef.ladderFilter)
  | .END_OF_LIST => dspPointers

/-- Lines 165-187 of `processBlock`: the local array `dspPointers` is declared without an
initialiser, then the loop body runs for `i = 0, 1, 2, 3`. -/
def resolvePointers (dspOrder : DSP_Order) : DSP_Pointers :=
  (List.finRange 4).foldl (resolveStep dspOrder) (fun _ => ProcessorBasePtr.indeterminate)

/-- One link of the chain: `process` is called on slot `m` with the block as it stands, and the
slot's state and the block are replaced by what the call returns. -/
def Audio_PluginAudioProcessor.link {nc ns : Nat} (m : SlotRef)
    (acc : Audio_PluginAudioProcessor Ph Dl Ch Lf × AudioBuffer α nc ns) :
    Audio_PluginAudioProcessor Ph Dl Ch Lf × AudioBuffer α nc ns :=
  Audio_PluginAudioProcessor.callProcess m acc.1 acc.2

/-- Lines 189-199 of `processBlock`: for each index in turn, a non-null pointer has `process`
called on it with the context over the buffer.  Reading an element that was never written is
undefined behaviour, for which the result is `none`. -/
def Audio_PluginAudioProcessor.runChain {nc ns : Nat} (dspPointers : DSP_Pointers)
    (s : Audio_PluginAudioProcessor Ph Dl Ch Lf) (buffer : AudioBuffer α nc ns) :
    Option (Audio_PluginAudioProcessor Ph Dl Ch Lf × AudioBuffer α nc ns) :=
  (List.finRange 4).foldlM
    (fun acc i =>
      match dspPointers i with
      | .indeterminate => none
      | .null => some acc
      | .addr m => some (Audio_PluginAudioProcessor.link m acc))
    (s, buffer)

/-- The method `processBlock` (lines 132-201): clear the surplus output channels, drain the FIFO
and adopt the latest order, resolve the active order to slot pointers, run the slots in
sequence on the buffer.  The MIDI buffer is not used. -/
def Audio_PluginAudioProcessor.processBlock [Zero α] {nc ns : Nat}
    (s : Audio_PluginAudioProcessor Ph Dl Ch Lf) (buffer : AudioBuffer α nc ns) :
    Option (Audio_PluginAudioProcessor Ph Dl Ch Lf × AudioBuffer α nc ns) :=
  let buffer1 := s.clearExtraChannels buffer
  let s1 := s.adoptLatestOrder
  let dspPointers := resolvePointers s1.dspOrder
  s1.runChain dspPointers buffer1

/-- The process function of slot `m`: what `DSP_Choice::process` of the member that `m` names
returns as the block, for the module state the member has in `s`. -/
def Audio_PluginAudioProcessor.slotProcess {nc ns : Nat}
    (s : Audio_PluginAudioProcessor Ph Dl Ch Lf) (m : SlotRef) (b : AudioBuffer α nc ns) :
    AudioBuffer α nc ns :=
  match m with
  | .phaser => (s.phaser.process b).2
  | .chorus => (s.chorus.process b).2
  | .overdrive => (s.overdrive.process b).2
  | .ladderFilter => (s.ladderFilter.process b).2

/-- The block each position of the chain is expected to receive when the slots `m 0`, `m 1`,
`m 2`, `m 3` are run in sequence on `b`: position 0 receives `b`, and each later position
receives what the process function of the slot before it returns. -/
def Audio_PluginAudioProcessor.chainInputs {nc ns : Nat}
    (s : Audio_PluginAudioProcessor Ph Dl Ch Lf) (m : Fin 4 → SlotRef) (b : AudioBuffer α nc ns) :
    Fin 4 → AudioBuffer α nc ns :=
  ![b,
    s.slotProcess (m 0) b,
    s.slotProcess (m 1) (s.slotProcess (m 0) b),
    s.slotProcess (m 2) (s.slotProcess (m 1) (s.slotProcess (m 0) b))]

end Operations

/-! ## Test modules

Concrete modules over integer samples, standing in for the JUCE algorithms in the examples. -/

/-- A gain stage: every sample is doubled. -/
inductive GainStage where
  | mk
  deriving DecidableEq, Repr

instance : DspModule GainStage ℤ where
  init := GainStage.mk
  prepare := fun _ d => d
  process := fun d b => (d, fun c k => 2 * b c k)
  reset := fun d => d

/-- A clipping stage: every sample is limited to the range from -1 to 1. -/
inductive ClipStage where
  | mk
  deriving DecidableEq, Repr

instance : DspModule ClipStage ℤ where
  init := ClipStage.mk
  prepare := fun _ d => d
  process := fun d b => (d, fun c k => max (-1) (min 1 (b c k)))
  reset := fun d => d

/-- A module that leaves the block as it is. -/
inductive Bypass where
  | mk
  deriving DecidableEq, Repr

instance : DspModule Bypass ℤ where
  init := Bypass.mk
  prepare := fun _ d => d
  process := fun d b => (d, b)
  reset := fun d => d

/-- A module that leaves the block as it is and records how it was driven: the configuration of
the last `prepare`, the number of `process` calls, and how many of them came before any
`prepare`. -/
structure Probe where
  preparedWith : Option ProcessSpec
  processCalls : Nat
  unpreparedCalls : Nat
  deriving DecidableEq

instance : DspModule Probe ℤ where
  init := { preparedWith := none, processCalls := 0, unpreparedCalls := 0 }
  prepare := fun spec d => { d with preparedWith := some spec }
  process := fun d b =>
    ({ d with
        processCalls := d.processCalls + 1
        unpreparedCalls :=
          if d.preparedWith.isNone then d.unpreparedCalls + 1 else d.unpreparedCalls }, b)
  reset := fun d => d

/-- The order Phase, Chorus, OverDrive, LadderFilter. -/
def orderABCD : DSP_Order :=
  ![DSP_Option.Phase, DSP_Option.Chorus, DSP_Option.OverDrive, DSP_Option.LadderFilter]

/-- The order Chorus, Phase, OverDrive, LadderFilter. -/
def orderBACD : DSP_Order :=
  ![DSP_Option.Chorus, DSP_Option.Phase, DSP_Option.OverDrive, DSP_Option.LadderFilter]

/-- An order that repeats Phase and leaves LadderFilter out. -/
def orderAABC : DSP_Order :=
  ![DSP_Option.Phase, DSP_Option.Phase, DSP_Option.Chorus, DSP_Option.OverDrive]

/-- A processor of bypass modules with active order Phase, Chorus, OverDrive, LadderFilter, an
empty FIFO of capacity 4, and the given channel counts. -/
def bypassProcessor (numIn numOut : Nat) : Audio_PluginAudioProcessor Bypass Bypass Bypass Bypass :=
  { totalNumInputChannels := numIn
    totalNumOutputChannels := numOut
    dspOrderFifo := { capacity := 4, items := [] }
    dspOrder := orderABCD
    phaser := { dsp := Bypass.mk }
    delay := { dsp := Bypass.mk }
    chorus := { dsp := Bypass.mk }
    overdrive := { dsp := Bypass.mk }
    ladderFilter := { dsp := Bypass.mk } }

/-- A stereo processor whose phaser slot is a gain stage and whose chorus slot is a clipping
stage, with the given active order and an empty FIFO. -/
def gainClipProcessor (order : DSP_Order) :
    Audio_PluginAudioProcessor GainStage Bypass ClipStage Bypass :=
  { totalNumInputChannels := 2
    totalNumOutputChannels := 2
    dspOrderFifo := { capacity := 4, items := [] }
    dspOrder := order
    phaser := { dsp := GainStage.mk }
    delay := { dsp := Bypass.mk }
    chorus := { dsp := ClipStage.mk }
    overdrive := { dsp := Bypass.mk }
    ladderFilter := { dsp := Bypass.mk } }

/-- A freshly constructed processor of probe modules whose storage was zero-filled, so that the
uninitialised `dspOrder` reads as four times the enumerator of value zero. -/
def freshProbeProcessor : Audio_PluginAudioProcessor Probe Probe Probe Probe :=
  Audio_PluginAudioProcessor.construct DSP_Order.valueInit 4

/-- A block of one channel and one sample. -/
def oneSample (x : ℤ) : AudioBuffer ℤ 1 1 := fun _ _ => x

/-! ## Helper lemmas -/

section Lemmas

variable {Ph Dl Ch Lf α : Type}
variable [DspModule Ph α] [DspModule Ch α] [DspModule Lf α]

theorem order_eta (o : DSP_Order) : o = ![o 0, o 1, o 2, o 3] := by
  funext i
  fin_cases i <;> rfl

set_option synthInstance.maxSize 1000 in
theorem isPermutation_facts_aux : ∀ a b c d : DSP_Option,
    DSP_Order.isPermutation ![a, b, c, d] →
      (a ≠ b ∧ a ≠ c ∧ a ≠ d ∧ b ≠ c ∧ b ≠ d ∧ c ≠ d)
        ∧ (a ≠ DSP_Option.END_OF_LIST ∧ b ≠ DSP_Option.END_OF_LIST
            ∧ c ≠ DSP_Option.END_OF_LIST ∧ d ≠ DSP_Option.END_OF_LIST) := by
  decide

set_option synthInstance.maxSize 1000 in
theorem isPermutation_of_facts_aux : ∀ a b c d : DSP_Option,
    (a ≠ b ∧ a ≠ c ∧ a ≠ d ∧ b ≠ c ∧ b ≠ d ∧ c ≠ d) →
      (a ≠ DSP_Option.END_OF_LIST ∧ b ≠ DSP_Option.END_OF_LIST
        ∧ c ≠ DSP_Option.END_OF_LIST ∧ d ≠ DSP_Option.END_OF_LIST) →
      DSP_Order.isPermutation ![a, b, c, d] := by
  decide

theorem isPermutation_injective (o : DSP_Order) (h : o.isPermutation) : Function.Injective o := by
  rw [order_eta o] at h
  obtain ⟨⟨h01, h02, h03, h12, h13, h23⟩, _⟩ := isPermutation_facts_aux _ _ _ _ h
  intro i j hij
  fin_cases i <;> fin_cases j <;> first | rfl | (exfalso; simp at hij; tauto)

theorem isPermutation_allReal (o : DSP_Order) (h : o.isPermutation) : o.allReal := by
  rw [order_eta o] at h
  obtain ⟨_, h0, h1, h2, h3⟩ := isPermutation_facts_aux _ _ _ _ h
  intro i
  fin_cases i <;> assumption

theorem isPermutation_ne_valueInit (o : DSP_Order) (h : o.isPermutation) :
    o ≠ DSP_Order.valueInit := by
  intro he
  have hinj := isPermutation_injective o h
  have h01 : (0 : Fin 4) = 1 := hinj (by rw [he]; rfl)
  exact absurd h01 (by decide)

theorem kind_injective : Function.Injective SlotRef.kind := by
  intro a b h
  cases a <;> cases b <;> first | rfl | cases h

theorem allReal_exists_slots (o : DSP_Order) (h : o.allReal) :
    ∃ m : Fin 4 → SlotRef, ∀ i, o i = (m i).kind := by
  have hex : ∀ i, ∃ r : SlotRef, o i = r.kind := by
    intro i
    have hi := h i
    cases hk : o i
    · exact ⟨SlotRef.phaser, rfl⟩
    · exact ⟨SlotRef.chorus, rfl⟩
    · exact ⟨SlotRef.overdrive, rfl⟩
    · exact ⟨SlotRef.ladderFilter, rfl⟩
    · exact absurd hk hi
  exact ⟨fun i => (hex i).choose, fun i => (hex i).choose_spec⟩

theorem slots_injective (o : DSP_Order) (h : o.isPermutation) (m : Fin 4 → SlotRef)
    (hm : ∀ i, o i = (m i).kind) : Function.Injective m := by
  intro i j hij
  apply isPermutation_injective o h
  rw [hm i, hm j, hij]

theorem finRange_four : List.finRange 4 = [0, 1, 2, 3] := by decide

theorem drainLoop_eq (items : List DSP_Order) (capacity : Nat) (t : DSP_Order) :
    drainLoop { capacity := capacity, items := items } t
      = ({ capacity := capacity, items := [] }, (items.getLast?).getD t) := by
  induction items generalizing t with
  | nil =>
    rw [drainLoop]
    simp [Fifo.pull]
  | cons x rest ih =>
    rw [drainLoop]
    simp only [Fifo.pull, dite_true]
    rw [ih x]
    cases rest with
    | nil => simp
    | cons y ys =>
      have hz : (y :: ys).getLast? = some ((y :: ys).getLast (by simp)) :=
        List.getLast?_eq_getLast _ (by simp)
      simp [List.getLast?_cons_cons, hz]

theorem drainLoop_fifo (f : Fifo DSP_Order) (t : DSP_Order) :
    drainLoop f t = ({ f with items := [] }, (f.items.getLast?).getD t) := by
  cases f with
  | mk capacity items => exact drainLoop_eq items capacity t

theorem adoptLatestOrder_fifo (s : Audio_PluginAudioProcessor Ph Dl Ch Lf) :
    s.adoptLatestOrder.dspOrderFifo = { s.dspOrderFifo with items := [] } := by
  unfold Audio_PluginAudioProcessor.adoptLatestOrder
  simp only [drainLoop_fifo]
  split <;> rfl

theorem adoptLatestOrder_dspOrder (s : Audio_PluginAudioProcessor Ph Dl Ch Lf) :
    s.adoptLatestOrder.dspOrder
      = if (s.dspOrderFifo.items.getLast?).getD DSP_Order.valueInit ≠ DSP_Order.valueInit
        then (s.dspOrderFifo.items.getLast?).getD DSP_Order.valueInit else s.dspOrder := by
  unfold Audio_PluginAudioProcessor.adoptLatestOrder
  simp only [drainLoop_fifo]
  split <;> rfl

theorem adoptLatestOrder_empty (s : Audio_PluginAudioProcessor Ph Dl Ch Lf)
    (h : s.dspOrderFifo.items = []) : s.adoptLatestOrder = s := by
  unfold Audio_PluginAudioProcessor.adoptLatestOrder
  simp only [drainLoop_fifo, h]
  cases s with
  | mk i o f d p1 p2 p3 p4 p5 =>
    cases f with
    | mk c items =>
      simp only at h
      subst h
      simp

theorem pushOrders_items (orders : List DSP_Order) (s : Audio_PluginAudioProcessor Ph Dl Ch Lf)
    (h : s.dspOrderFifo.items.length + orders.length ≤ s.dspOrderFifo.capacity) :
    (s.pushOrders orders).dspOrderFifo.items = s.dspOrderFifo.items ++ orders
      ∧ (s.pushOrders orders).dspOrder = s.dspOrder := by
  induction orders generalizing s with
  | nil => simp [Audio_PluginAudioProcessor.pushOrders]
  | cons o rest ih =>
    simp only [List.length_cons] at h
    have hlt : s.dspOrderFifo.items.length < s.dspOrderFifo.capacity := by omega
    have hstep : (s.pushOrder o).dspOrderFifo
        = { s.dspOrderFifo with items := s.dspOrderFifo.items ++ [o] } := by
      simp [Audio_PluginAudioProcessor.pushOrder, Fifo.push, hlt]
    have hord : (s.pushOrder o).dspOrder = s.dspOrder := rfl
    have h2 : (s.pushOrder o).dspOrderFifo.items.length + rest.length
        ≤ (s.pushOrder o).dspOrderFifo.capacity := by
      rw [hstep]
      simp only [List.length_append, List.length_singleton]
      omega
    have := ih (s.pushOrder o) h2
    simp only [Audio_PluginAudioProcessor.pushOrders, List.foldl_cons] at this ⊢
    rw [this.1, this.2, hstep, hord]
    simp

theorem resolveStep_apply (o : DSP_Order) (ptrs : DSP_Pointers) (i j : Fin 4) :
    resolveStep o ptrs i j =
      if j = i then
        (match o i with
        | .Phase => ProcessorBasePtr.addr SlotRef.phaser
        | .Chorus => ProcessorBasePtr.addr SlotRef.chorus
        | .OverDrive => ProcessorBasePtr.addr SlotRef.overdrive
        | .LadderFilter => ProcessorBasePtr.addr SlotRef.ladderFilter
        | .END_OF_LIST => ptrs i)
      else ptrs j := by
  unfold resolveStep
  by_cases hji : j = i
  · subst hji
    cases o j <;> simp
  · cases o i <;> simp [Function.update, hji]

theorem resolvePointers_apply (o : DSP_Order) (i : Fin 4) :
    resolvePointers o i =
      match o i with
      | .Phase => ProcessorBasePtr.addr SlotRef.phaser
      | .Chorus => ProcessorBasePtr.addr SlotRef.chorus
      | .OverDrive => ProcessorBasePtr.addr SlotRef.overdrive
      | .LadderFilter => ProcessorBasePtr.addr SlotRef.ladderFilter
      | .END_OF_LIST => ProcessorBasePtr.indeterminate := by
  unfold resolvePointers
  rw [finRange_four]
  simp only [List.foldl_cons, List.foldl_nil, resolveStep_apply]
  fin_cases i <;> simp

theorem resolvePointers_kind (o : DSP_Order) (m : Fin 4 → SlotRef)
    (h : ∀ i, o i = (m i).kind) (i : Fin 4) :
    resolvePointers o i = ProcessorBasePtr.addr (m i) := by
  rw [resolvePointers_apply, h i]
  cases m i <;> rfl

theorem runChain_addr {nc ns : Nat} (ptrs : DSP_Pointers) (m : Fin 4 → SlotRef)
    (h : ∀ i, ptrs i = ProcessorBasePtr.addr (m i))
    (s : Audio_PluginAudioProcessor Ph Dl Ch Lf) (b : AudioBuffer α nc ns) :
    s.runChain ptrs b
      = some (Audio_PluginAudioProcessor.link (m 3) (Audio_PluginAudioProcessor.link (m 2)
          (Audio_PluginAudioProcessor.link (m 1) (Audio_PluginAudioProcessor.link (m 0) (s, b))))) := by
  unfold Audio_PluginAudioProcessor.runChain
  rw [finRange_four]
  simp [List.foldlM, h]

theorem runChain_indeterminate {nc ns : Nat} (ptrs : DSP_Pointers) (i : Fin 4)
    (h : ptrs i = ProcessorBasePtr.indeterminate)
    (s : Audio_PluginAudioProcessor Ph Dl Ch Lf) (b : AudioBuffer α nc ns) :
    s.runChain ptrs b = none := by
  unfold Audio_PluginAudioProcessor.runChain
  rw [finRange_four]
  fin_cases i <;> simp only [Fin.zero_eta, Fin.mk_one, Fin.reduceFinMk] at h <;>
    simp only [List.foldlM, h] <;>
    repeat (first | rfl | (cases ptrs _ <;> simp only [Option.bind_eq_bind, Option.some_bind, Option.none_bind, h]))

theorem link_fst_frame {nc ns : Nat} (m : SlotRef)
    (acc : Audio_PluginAudioProcessor Ph Dl Ch Lf × AudioBuffer α nc ns) :
    (Audio_PluginAudioProcessor.link m acc).1.dspOrder = acc.1.dspOrder
      ∧ (Audio_PluginAudioProcessor.link m acc).1.dspOrderFifo = acc.1.dspOrderFifo := by
  cases m <;> exact ⟨rfl, rfl⟩

theorem link_snd {nc ns : Nat} (m : SlotRef)
    (acc : Audio_PluginAudioProcessor Ph Dl Ch Lf × AudioBuffer α nc ns) :
    (Audio_PluginAudioProcessor.link m acc).2 = acc.1.slotProcess m acc.2 := by
  cases m <;> rfl

theorem slotProcess_link_of_ne {nc ns : Nat} (m m1 : SlotRef) (hne : m1 ≠ m)
    (acc : Audio_PluginAudioProcessor Ph Dl Ch Lf × AudioBuffer α nc ns)
    (b : AudioBuffer α nc ns) :
    (Audio_PluginAudioProcessor.link m acc).1.slotProcess m1 b = acc.1.slotProcess m1 b := by
  cases m <;> cases m1 <;> first | rfl | exact absurd rfl hne

theorem chain_buffer {nc ns : Nat} (m : Fin 4 → SlotRef) (hm : Function.Injective m)
    (s : Audio_PluginAudioProcessor Ph Dl Ch Lf) (b : AudioBuffer α nc ns) :
    (Audio_PluginAudioProcessor.link (m 3) (Audio_PluginAudioProcessor.link (m 2)
        (Audio_PluginAudioProcessor.link (m 1) (Audio_PluginAudioProcessor.link (m 0) (s, b))))).2
      = s.slotProcess (m 3) (s.slotProcess (m 2) (s.slotProcess (m 1) (s.slotProcess (m 0) b))) := by
  have h10 : m 1 ≠ m 0 := fun h => absurd (hm h) (by decide)
  have h20 : m 2 ≠ m 0 := fun h => absurd (hm h) (by decide)
  have h30 : m 3 ≠ m 0 := fun h => absurd (hm h) (by decide)
  have h21 : m 2 ≠ m 1 := fun h => absurd (hm h) (by decide)
  have h31 : m 3 ≠ m 1 := fun h => absurd (hm h) (by decide)
  have h32 : m 3 ≠ m 2 := fun h => absurd (hm h) (by decide)
  simp only [link_snd, slotProcess_link_of_ne _ _ h10, slotProcess_link_of_ne _ _ h20,
    slotProcess_link_of_ne _ _ h30, slotProcess_link_of_ne _ _ h21,
    slotProcess_link_of_ne _ _ h31, slotProcess_link_of_ne _ _ h32]

theorem adoptLatestOrder_slotProcess {nc ns : Nat} (s : Audio_PluginAudioProcessor Ph Dl Ch Lf)
    (m : SlotRef) (b : AudioBuffer α nc ns) :
    s.adoptLatestOrder.slotProcess m b = s.slotProcess m b := by
  unfold Audio_PluginAudioProcessor.adoptLatestOrder
  simp only [drainLoop_fifo]
  split <;> cases m <;> rfl

theorem processBlock_some [Zero α] {nc ns : Nat} (s : Audio_PluginAudioProcessor Ph Dl Ch Lf)
    (b : AudioBuffer α nc ns) (m : Fin 4 → SlotRef)
    (hm : ∀ i, s.adoptLatestOrder.dspOrder i = (m i).kind) :
    s.processBlock b
      = some (Audio_PluginAudioProcessor.link (m 3) (Audio_PluginAudioProcessor.link (m 2)
          (Audio_PluginAudioProcessor.link (m 1)
            (Audio_PluginAudioProcessor.link (m 0)
              (s.adoptLatestOrder, s.clearExtraChannels b))))) := by
  unfold Audio_PluginAudioProcessor.processBlock
  exact runChain_addr _ m (resolvePointers_kind _ m hm) _ _

theorem processBlock_none [Zero α] {nc ns : Nat} (s : Audio_PluginAudioProcessor Ph Dl Ch Lf)
    (b : AudioBuffer α nc ns) (i : Fin 4)
    (hi : s.adoptLatestOrder.dspOrder i = DSP_Option.END_OF_LIST) :
    s.processBlock b = none := by
  unfold Audio_PluginAudioProcessor.processBlock
  apply runChain_indeterminate _ i
  rw [resolvePointers_apply, hi]

theorem processBlock_order [Zero α] {nc ns : Nat} (s : Audio_PluginAudioProcessor Ph Dl Ch Lf)
    (b : AudioBuffer α nc ns) (h : s.adoptLatestOrder.dspOrder.allReal) :
    ∃ r, s.processBlock b = some r ∧ r.1.dspOrder = s.adoptLatestOrder.dspOrder
      ∧ r.1.dspOrderFifo = s.adoptLatestOrder.dspOrderFifo := by
  obtain ⟨m, hm⟩ := allReal_exists_slots _ h
  refine ⟨_, processBlock_some s b m hm, ?_, ?_⟩
  · simp only [(link_fst_frame _ _).1]
  · simp only [(link_fst_frame _ _).2]

theorem processBlock_order_of_some [Zero α] {nc ns : Nat}
    (s : Audio_PluginAudioProcessor Ph Dl Ch Lf) (b : AudioBuffer α nc ns)
    (r : Audio_PluginAudioProcessor Ph Dl Ch Lf × AudioBuffer α nc ns)
    (h : s.processBlock b = some r) :
    r.1.dspOrder = s.adoptLatestOrder.dspOrder
      ∧ r.1.dspOrderFifo = s.adoptLatestOrder.dspOrderFifo := by
  by_cases hreal : s.adoptLatestOrder.dspOrder.allReal
  · obtain ⟨r1, hr1, h1, h2⟩ := processBlock_order s b hreal
    rw [h] at hr1
    cases hr1
    exact ⟨h1, h2⟩
  · unfold DSP_Order.allReal at hreal
    push_neg at hreal
    obtain ⟨i, hi⟩ := hreal
    rw [processBlock_none s b i hi] at h
    cases h

theorem clearChannels_apply [Zero α] {nc ns : Nat} (l : List Nat) (b : AudioBuffer α nc ns)
    (c : Fin nc) (k : Fin ns) :
    (l.foldl (fun (b : AudioBuffer α nc ns) i => b.clear i 0 b.getNumSamples) b) c k
      = if c.val ∈ l then 0 else b c k := by
  induction l generalizing b with
  | nil => simp
  | cons i rest ih =>
    simp only [List.foldl_cons, ih, List.mem_cons]
    by_cases hr : c.val ∈ rest
    · simp [hr]
    · by_cases hi : c.val = i
      · simp [hr, hi, AudioBuffer.clear, AudioBuffer.getNumSamples]
      · simp [hr, hi, AudioBuffer.clear]

theorem chain_swap_adjacent {B : Type} (P : SlotRef → B → B) (m : Fin 4 → SlotRef)
    (i j : Fin 4) (hadj : i.val + 1 = j.val)
    (hcomm : ∀ x, P (m i) (P (m j) x) = P (m j) (P (m i) x)) (x : B) :
    P ((m ∘ Equiv.swap i j) 3) (P ((m ∘ Equiv.swap i j) 2) (P ((m ∘ Equiv.swap i j) 1)
        (P ((m ∘ Equiv.swap i j) 0) x)))
      = P (m 3) (P (m 2) (P (m 1) (P (m 0) x))) := by
  fin_cases i <;> fin_cases j <;> simp at hadj
  · have e0 : (Equiv.swap (0 : Fin 4) 1) 0 = 1 := by decide
    have e1 : (Equiv.swap (0 : Fin 4) 1) 1 = 0 := by decide
    have e2 : (Equiv.swap (0 : Fin 4) 1) 2 = 2 := by decide
    have e3 : (Equiv.swap (0 : Fin 4) 1) 3 = 3 := by decide
    simp only [Function.comp, Fin.zero_eta, Fin.mk_one, e0, e1, e2, e3]
    simp only [Fin.zero_eta, Fin.mk_one] at hcomm
    rw [hcomm]
  · have e0 : (Equiv.swap (1 : Fin 4) 2) 0 = 0 := by decide
    have e1 : (Equiv.swap (1 : Fin 4) 2) 1 = 2 := by decide
    have e2 : (Equiv.swap (1 : Fin 4) 2) 2 = 1 := by decide
    have e3 : (Equiv.swap (1 : Fin 4) 2) 3 = 3 := by decide
    simp only [Function.comp, Fin.mk_one, Fin.reduceFinMk, e0, e1, e2, e3]
    simp only [Fin.mk_one, Fin.reduceFinMk] at hcomm
    rw [hcomm]
  · have e0 : (Equiv.swap (2 : Fin 4) 3) 0 = 0 := by decide
    have e1 : (Equiv.swap (2 : Fin 4) 3) 1 = 1 := by decide
    have e2 : (Equiv.swap (2 : Fin 4) 3) 2 = 3 := by decide
    have e3 : (Equiv.swap (2 : Fin 4) 3) 3 = 2 := by decide
    simp only [Function.comp, Fin.reduceFinMk, e0, e1, e2, e3]
    simp only [Fin.reduceFinMk] at hcomm
    rw [hcomm]

theorem withOrder_adopt (s : Audio_PluginAudioProcessor Ph Dl Ch Lf) (O : DSP_Order)
    (hempty : s.dspOrderFifo.items = []) :
    ({ s with dspOrder := O } : Audio_PluginAudioProcessor Ph Dl Ch Lf).adoptLatestOrder
      = { s with dspOrder := O } :=
  adoptLatestOrder_empty _ hempty

theorem withOrder_slotProcess {nc ns : Nat} (s : Audio_PluginAudioProcessor Ph Dl Ch Lf)
    (O : DSP_Order) (m : SlotRef) (b : AudioBuffer α nc ns) :
    ({ s with dspOrder := O } : Audio_PluginAudioProcessor Ph Dl Ch Lf).slotProcess m b
      = s.slotProcess m b := by
  cases m <;> rfl

theorem processBlock_buffer [Zero α] {nc ns : Nat} (s : Audio_PluginAudioProcessor Ph Dl Ch Lf)
    (b : AudioBuffer α nc ns) (hperm : s.adoptLatestOrder.dspOrder.isPermutation)
    (m : Fin 4 → SlotRef) (hm : ∀ i, s.adoptLatestOrder.dspOrder i = (m i).kind) :
    ∃ r, s.processBlock b = some r
      ∧ r.2 = s.slotProcess (m 3) (s.slotProcess (m 2) (s.slotProcess (m 1)
                (s.slotProcess (m 0) (s.clearExtraChannels b)))) := by
  refine ⟨_, processBlock_some s b m hm, ?_⟩
  rw [chain_buffer m (slots_injective _ hperm m hm)]
  simp only [adoptLatestOrder_slotProcess]

theorem isPermutation_comp_swap (O : DSP_Order) (h : O.isPermutation) (i j : Fin 4) :
    DSP_Order.isPermutation (O ∘ Equiv.swap i j) := by
  have hinj : Function.Injective (O ∘ Equiv.swap i j) :=
    (isPermutation_injective O h).comp (Equiv.swap i j).injective
  have hreal := isPermutation_allReal O h
  rw [order_eta (O ∘ Equiv.swap i j)]
  apply isPermutation_of_facts_aux
  · refine ⟨?_, ?_, ?_, ?_, ?_, ?_⟩ <;> exact fun he => absurd (hinj he) (by decide)
  · exact ⟨hreal _, hreal _, hreal _, hreal _⟩

theorem link_members {nc ns : Nat} (m : SlotRef)
    (acc : Audio_PluginAudioProcessor Ph Dl Ch Lf × AudioBuffer α nc ns) :
    (Audio_PluginAudioProcessor.link m acc).1.phaser
        = (if m = SlotRef.phaser then (acc.1.phaser.process acc.2).1 else acc.1.phaser)
      ∧ (Audio_PluginAudioProcessor.link m acc).1.chorus
        = (if m = SlotRef.chorus then (acc.1.chorus.process acc.2).1 else acc.1.chorus)
      ∧ (Audio_PluginAudioProcessor.link m acc).1.overdrive
        = (if m = SlotRef.overdrive then (acc.1.overdrive.process acc.2).1 else acc.1.overdrive)
      ∧ (Audio_PluginAudioProcessor.link m acc).1.ladderFilter
        = (if m = SlotRef.ladderFilter then (acc.1.ladderFilter.process acc.2).1
            else acc.1.ladderFilter)
      ∧ (Audio_PluginAudioProcessor.link m acc).1.delay = acc.1.delay := by
  cases m <;> exact ⟨rfl, rfl, rfl, rfl, rfl⟩

theorem adoptLatestOrder_members (s : Audio_PluginAudioProcessor Ph Dl Ch Lf) :
    s.adoptLatestOrder.phaser = s.phaser ∧ s.adoptLatestOrder.chorus = s.chorus
      ∧ s.adoptLatestOrder.overdrive = s.overdrive
      ∧ s.adoptLatestOrder.ladderFilter = s.ladderFilter
      ∧ s.adoptLatestOrder.delay = s.delay := by
  unfold Audio_PluginAudioProcessor.adoptLatestOrder
  simp only [drainLoop_fifo]
  split <;> exact ⟨rfl, rfl, rfl, rfl, rfl⟩

theorem chain_prefix_buffers {nc ns : Nat} (m : Fin 4 → SlotRef) (hm : Function.Injective m)
    (s : Audio_PluginAudioProcessor Ph Dl Ch Lf) (b : AudioBuffer α nc ns) :
    (Audio_PluginAudioProcessor.link (m 0) (s, b)).2 = s.chainInputs m b 1
      ∧ (Audio_PluginAudioProcessor.link (m 1) (Audio_PluginAudioProcessor.link (m 0) (s, b))).2
          = s.chainInputs m b 2
      ∧ (Audio_PluginAudioProcessor.link (m 2) (Audio_PluginAudioProcessor.link (m 1)
          (Audio_PluginAudioProcessor.link (m 0) (s, b)))).2 = s.chainInputs m b 3 := by
  have h10 : m 1 ≠ m 0 := fun h => absurd (hm h) (by decide)
  have h20 : m 2 ≠ m 0 := fun h => absurd (hm h) (by decide)
  have h21 : m 2 ≠ m 1 := fun h => absurd (hm h) (by decide)
  refine ⟨?_, ?_, ?_⟩ <;>
    simp only [link_snd, slotProcess_link_of_ne _ _ h10, slotProcess_link_of_ne _ _ h20,
      slotProcess_link_of_ne _ _ h21] <;> rfl

theorem chain_member_states {nc ns : Nat} (m : Fin 4 → SlotRef) (hm : Function.Injective m)
    (s : Audio_PluginAudioProcessor Ph Dl Ch Lf) (b : AudioBuffer α nc ns) (i : Fin 4) :
    (m i = SlotRef.phaser →
        (Audio_PluginAudioProcessor.link (m 3) (Audio_PluginAudioProcessor.link (m 2)
          (Audio_PluginAudioProcessor.link (m 1)
            (Audio_PluginAudioProcessor.link (m 0) (s, b))))).1.phaser
          = (s.phaser.process (s.chainInputs m b i)).1)
      ∧ (m i = SlotRef.chorus →
        (Audio_PluginAudioProcessor.link (m 3) (Audio_PluginAudioProcessor.link (m 2)
          (Audio_PluginAudioProcessor.link (m 1)
            (Audio_PluginAudioProcessor.link (m 0) (s, b))))).1.chorus
          = (s.chorus.process (s.chainInputs m b i)).1)
      ∧ (m i = SlotRef.overdrive →
        (Audio_PluginAudioProcessor.link (m 3) (Audio_PluginAudioProcessor.link (m 2)
          (Audio_PluginAudioProcessor.link (m 1)
            (Audio_PluginAudioProcessor.link (m 0) (s, b))))).1.overdrive
          = (s.overdrive.process (s.chainInputs m b i)).1)
      ∧ (m i = SlotRef.ladderFilter →
        (Audio_PluginAudioProcessor.link (m 3) (Audio_PluginAudioProcessor.link (m 2)
          (Audio_PluginAudioProcessor.link (m 1)
            (Audio_PluginAudioProcessor.link (m 0) (s, b))))).1.ladderFilter
          = (s.ladderFilter.process (s.chainInputs m b i)).1) := by
  obtain ⟨hb1, hb2, hb3⟩ := chain_prefix_buffers m hm s b
  have hb0 : s.chainInputs m b 0 = b := rfl
  have key : ∀ x : SlotRef, m i = x → ∀ j : Fin 4, (m j = x) = (j = i) := fun x hx j => by
    rw [← hx]
    exact propext hm.eq_iff
  refine ⟨?_, ?_, ?_, ?_⟩ <;> intro hi <;>
    simp only [(link_members _ _).1, (link_members _ _).2.1, (link_members _ _).2.2.1,
      (link_members _ _).2.2.2.1, key _ hi, hb1, hb2, hb3] <;>
    fin_cases i <;> simp [hb0]

end Lemmas

/-! ## The claims -/

section Claims

variable {Ph Dl Ch Lf α : Type}
variable [DspModule Ph α] [DspModule Ch α] [DspModule Lf α]

/-- C1 (drain-to-latest): orders `P1..Pn` (`n ≥ 1`), each a permutation of the four kinds, are
pushed within the capacity of the queue with no pull in between.  Then a single call of
`processBlock` completes with `dspOrder` equal to `Pn` and the queue empty, whatever
`P1..Pn-1`, the earlier queue content and the earlier active order were. -/
theorem drain_to_latest [Zero α] {nc ns : Nat} (s : Audio_PluginAudioProcessor Ph Dl Ch Lf)
    (orders : List DSP_Order) (b : AudioBuffer α nc ns) (hne : orders ≠ [])
    (hcap : s.dspOrderFifo.items.length + orders.length ≤ s.dspOrderFifo.capacity)
    (hvalid : ∀ P ∈ orders, DSP_Order.isPermutation P) :
    ∃ r, (s.pushOrders orders).processBlock b = some r
      ∧ r.1.dspOrder = orders.getLast hne ∧ r.1.dspOrderFifo.items = [] := by
  have hperm : (orders.getLast hne).isPermutation := hvalid _ (List.getLast_mem hne)
  have hlast := isPermutation_ne_valueInit _ hperm
  have hpush := pushOrders_items orders s hcap
  have hl : (s.dspOrderFifo.items ++ orders).getLast? = some (orders.getLast hne) := by
    rw [List.getLast?_append_of_ne_nil _ hne, List.getLast?_eq_getLast _ hne]
  have hord : (s.pushOrders orders).adoptLatestOrder.dspOrder = orders.getLast hne := by
    rw [adoptLatestOrder_dspOrder, hpush.1, hl]
    simp [hlast]
  have hfifo : (s.pushOrders orders).adoptLatestOrder.dspOrderFifo.items = [] := by
    rw [adoptLatestOrder_fifo]
  obtain ⟨r, hr, h1, h2⟩ := processBlock_order (s.pushOrders orders) b
    (hord ▸ isPermutation_allReal _ hperm)
  exact ⟨r, hr, h1.trans hord, by rw [h2, hfifo]⟩

/-- The scenario of the specification for C1: capacity 4, the orders Phase, Chorus, OverDrive,
LadderFilter and Chorus, Phase, OverDrive, LadderFilter pushed in immediate succession; one
call leaves the second order active and the queue empty. -/
theorem drain_to_latest_witness :
    ∃ r, ((bypassProcessor 2 2).pushOrders [orderABCD, orderBACD]).processBlock
          (oneSample 1) = some r
      ∧ r.1.dspOrder = orderBACD ∧ r.1.dspOrderFifo.items = [] :=
  drain_to_latest (bypassProcessor 2 2) [orderABCD, orderBACD] (oneSample 1) (by decide)
    (by decide)
    (List.forall_mem_cons.mpr ⟨by decide,
      List.forall_mem_cons.mpr ⟨by decide, fun _ h => absurd h (List.not_mem_nil _)⟩⟩)

/-- C2 (resolution of a valid order): for every order `O` that is a permutation of the four
kinds, the resolve loop writes all four entries of `dspPointers`; entry `i` is the address of
the slot kept for the kind `O[i]` (Phase to `phaser`, Chorus to `chorus`, OverDrive to
`overdrive`, LadderFilter to `ladderFilter`), and each of the four slots is pointed to by
exactly one entry. -/
theorem resolve_valid_order (O : DSP_Order) (hO : O.isPermutation) :
    (∀ i : Fin 4,
        (O i = DSP_Option.Phase → resolvePointers O i = ProcessorBasePtr.addr SlotRef.phaser)
        ∧ (O i = DSP_Option.Chorus → resolvePointers O i = ProcessorBasePtr.addr SlotRef.chorus)
        ∧ (O i = DSP_Option.OverDrive →
            resolvePointers O i = ProcessorBasePtr.addr SlotRef.overdrive)
        ∧ (O i = DSP_Option.LadderFilter →
            resolvePointers O i = ProcessorBasePtr.addr SlotRef.ladderFilter)
        ∧ ∃ m : SlotRef, resolvePointers O i = ProcessorBasePtr.addr m ∧ m.kind = O i)
      ∧ ∀ m : SlotRef, ∃! i : Fin 4, resolvePointers O i = ProcessorBasePtr.addr m := by
  obtain ⟨sl, hsl⟩ := allReal_exists_slots O (isPermutation_allReal O hO)
  have hinj := slots_injective O hO sl hsl
  have hres := resolvePointers_kind O sl hsl
  refine ⟨fun i => ⟨?_, ?_, ?_, ?_, sl i, hres i, (hsl i).symm⟩, fun m => ?_⟩
  · intro h; rw [resolvePointers_apply, h]
  · intro h; rw [resolvePointers_apply, h]
  · intro h; rw [resolvePointers_apply, h]
  · intro h; rw [resolvePointers_apply, h]
  · have hsurj : Function.Surjective sl :=
      (Fintype.bijective_iff_injective_and_card sl).mpr ⟨hinj, by decide⟩ |>.2
    obtain ⟨i, hi⟩ := hsurj m
    refine ⟨i, by show resolvePointers O i = _; rw [hres i, hi], fun j hj => ?_⟩
    have hj : resolvePointers O j = ProcessorBasePtr.addr m := hj
    rw [hres j] at hj
    apply hinj
    rw [hi]
    exact ProcessorBasePtr.addr.inj hj

/-- An instance of C2: the order Chorus, Phase, OverDrive, LadderFilter. -/
theorem resolve_valid_order_witness :
    orderBACD.isPermutation
      ∧ ((∀ i : Fin 4,
          (orderBACD i = DSP_Option.Phase →
              resolvePointers orderBACD i = ProcessorBasePtr.addr SlotRef.phaser)
          ∧ (orderBACD i = DSP_Option.Chorus →
              resolvePointers orderBACD i = ProcessorBasePtr.addr SlotRef.chorus)
          ∧ (orderBACD i = DSP_Option.OverDrive →
              resolvePointers orderBACD i = ProcessorBasePtr.addr SlotRef.overdrive)
          ∧ (orderBACD i = DSP_Option.LadderFilter →
              resolvePointers orderBACD i = ProcessorBasePtr.addr SlotRef.ladderFilter)
          ∧ ∃ m : SlotRef, resolvePointers orderBACD i = ProcessorBasePtr.addr m
              ∧ m.kind = orderBACD i)
        ∧ ∀ m : SlotRef, ∃! i : Fin 4, resolvePointers orderBACD i = ProcessorBasePtr.addr m) :=
  ⟨by decide, resolve_valid_order orderBACD (by decide)⟩

/-- C8 (no update, no change): when `dspOrderFifo` is empty at the start of `processBlock`, the
first pull returns false and leaves its argument untouched, the drain loop ends at once, the
drain step leaves the processor as it was, and a completed call has the same `dspOrder` as
before and a queue that is still empty; the call completes when the active order has no
`END_OF_LIST` entry. -/
theorem no_update_no_change [Zero α] {nc ns : Nat} (s : Audio_PluginAudioProcessor Ph Dl Ch Lf)
    (b : AudioBuffer α nc ns) (hempty : s.dspOrderFifo.items = []) :
    s.dspOrderFifo.pull DSP_Order.valueInit = (false, s.dspOrderFifo, DSP_Order.valueInit)
      ∧ drainLoop s.dspOrderFifo DSP_Order.valueInit = (s.dspOrderFifo, DSP_Order.valueInit)
      ∧ s.adoptLatestOrder = s
      ∧ (∀ r, s.processBlock b = some r →
          r.1.dspOrder = s.dspOrder ∧ r.1.dspOrderFifo.items = [])
      ∧ (s.dspOrder.allReal →
          ∃ r, s.processBlock b = some r ∧ r.1.dspOrder = s.dspOrder
            ∧ r.1.dspOrderFifo.items = []) := by
  have hadopt := adoptLatestOrder_empty s hempty
  refine ⟨?_, ?_, hadopt, ?_, ?_⟩
  · simp [Fifo.pull, hempty]
  · rw [drainLoop_fifo, hempty]
    cases hf : s.dspOrderFifo with
    | mk c items =>
      rw [hf] at hempty
      simp only at hempty
      subst hempty
      simp
  · intro r hr
    have := processBlock_order_of_some s b r hr
    rw [hadopt] at this
    exact ⟨this.1, by rw [this.2, hempty]⟩
  · intro hreal
    obtain ⟨r, hr, h1, h2⟩ := processBlock_order s b (by rw [hadopt]; exact hreal)
    rw [hadopt] at h1 h2
    exact ⟨r, hr, h1, by rw [h2, hempty]⟩

/-- An instance of C8: a processor with an empty queue and active order Phase, Chorus,
OverDrive, LadderFilter keeps that order over a call. -/
theorem no_update_no_change_witness :
    (bypassProcessor 2 2).adoptLatestOrder = bypassProcessor 2 2
      ∧ ∃ r, (bypassProcessor 2 2).processBlock (oneSample 1) = some r
          ∧ r.1.dspOrder = (bypassProcessor 2 2).dspOrder ∧ r.1.dspOrderFifo.items = [] :=
  ⟨(no_update_no_change (bypassProcessor 2 2) (oneSample 1) rfl).2.2.1,
    (no_update_no_change (bypassProcessor 2 2) (oneSample 1) rfl).2.2.2.2 (by decide)⟩

/-- C9 (no valid order is mistaken for "no update"): every order `O` that is a permutation of
the four kinds differs from the value-initialised `DSP_Order ()`; hence whenever such an `O` is
the last entry of the queue, and so the last value pulled by the drain, the call of
`processBlock` completes with `O` installed as `dspOrder`. -/
theorem valid_order_is_installed [Zero α] {nc ns : Nat} (O : DSP_Order) (hO : O.isPermutation)
    (s : Audio_PluginAudioProcessor Ph Dl Ch Lf) (b : AudioBuffer α nc ns)
    (hlast : s.dspOrderFifo.items.getLast? = some O) :
    O ≠ DSP_Order.valueInit
      ∧ (drainLoop s.dspOrderFifo DSP_Order.valueInit).2 = O
      ∧ ∃ r, s.processBlock b = some r ∧ r.1.dspOrder = O := by
  have hne := isPermutation_ne_valueInit O hO
  have hord : s.adoptLatestOrder.dspOrder = O := by
    rw [adoptLatestOrder_dspOrder, hlast]
    simp [hne]
  refine ⟨hne, by rw [drainLoop_fifo, hlast]; rfl, ?_⟩
  obtain ⟨r, hr, h1, _⟩ := processBlock_order s b (hord ▸ isPermutation_allReal O hO)
  exact ⟨r, hr, h1.trans hord⟩

/-- An instance of C9: the order Chorus, Phase, OverDrive, LadderFilter, pushed onto a processor
whose active order is Phase, Chorus, OverDrive, LadderFilter, is installed by the next call. -/
theorem valid_order_is_installed_witness :
    orderBACD ≠ DSP_Order.valueInit
      ∧ (drainLoop ((bypassProcessor 2 2).pushOrder orderBACD).dspOrderFifo
          DSP_Order.valueInit).2 = orderBACD
      ∧ ∃ r, ((bypassProcessor 2 2).pushOrder orderBACD).processBlock (oneSample 1) = some r
          ∧ r.1.dspOrder = orderBACD :=
  valid_order_is_installed orderBACD (by decide) ((bypassProcessor 2 2).pushOrder orderBACD)
    (oneSample 1) (by decide)

/-- C5, as stated, fails: the order Phase, Phase, Chorus, OverDrive is not a permutation, yet
when it is pulled from the queue of a processor whose active order is Phase, Chorus,
OverDrive, LadderFilter, `processBlock` installs it: the active order after the call is the
invalid order and not the previous one. -/
theorem invalid_order_counterexample :
    ¬ orderAABC.isPermutation
      ∧ (((bypassProcessor 2 2).pushOrder orderAABC).processBlock (oneSample 1)).map
          (fun r => r.1.dspOrder) = some orderAABC
      ∧ orderAABC ≠ ((bypassProcessor 2 2).pushOrder orderAABC).dspOrder := by
  refine ⟨by decide, ?_, by decide⟩
  have hord : ((bypassProcessor 2 2).pushOrder orderAABC).adoptLatestOrder.dspOrder
      = orderAABC := by
    rw [adoptLatestOrder_dspOrder]
    decide
  obtain ⟨r, hr, h1, _⟩ := processBlock_order ((bypassProcessor 2 2).pushOrder orderAABC)
    (oneSample 1) (by rw [hord]; decide)
  rw [hr, Option.map_some', h1, hord]

/-- C5, amended: of the orders that are not permutations, only the value-initialised
`DSP_Order ()` (Phase four times) is treated as "no update": when it is the last order pulled,
the drain step retains the previous `dspOrder`.  Any other order that is not a permutation is
adopted as `dspOrder` by the drain step, and when it is made of real kinds, so that some kind
occurs at two positions, the call completes with it as the active order. -/
theorem invalid_order_adoption [Zero α] {nc ns : Nat}
    (s : Audio_PluginAudioProcessor Ph Dl Ch Lf) (b : AudioBuffer α nc ns) (O : DSP_Order)
    (hlast : s.dspOrderFifo.items.getLast? = some O) (hO : ¬ O.isPermutation) :
    (O = DSP_Order.valueInit →
        s.adoptLatestOrder.dspOrder = s.dspOrder
          ∧ (s.dspOrder.allReal → ∃ r, s.processBlock b = some r ∧ r.1.dspOrder = s.dspOrder))
      ∧ (O ≠ DSP_Order.valueInit →
        s.adoptLatestOrder.dspOrder = O
          ∧ (O.allReal →
              (∃ i j : Fin 4, i ≠ j ∧ O i = O j)
                ∧ ∃ r, s.processBlock b = some r ∧ r.1.dspOrder = O)) := by
  constructor
  · intro h
    have hord : s.adoptLatestOrder.dspOrder = s.dspOrder := by
      rw [adoptLatestOrder_dspOrder, hlast]
      simp [h]
    refine ⟨hord, fun hreal => ?_⟩
    obtain ⟨r, hr, h1, _⟩ := processBlock_order s b (hord ▸ hreal)
    exact ⟨r, hr, h1.trans hord⟩
  · intro h
    have hord : s.adoptLatestOrder.dspOrder = O := by
      rw [adoptLatestOrder_dspOrder, hlast]
      simp [h]
    refine ⟨hord, fun hreal => ⟨?_, ?_⟩⟩
    · by_contra hno
      push_neg at hno
      apply hO
      rw [order_eta O]
      exact isPermutation_of_facts_aux _ _ _ _
        ⟨hno 0 1 (by decide), hno 0 2 (by decide), hno 0 3 (by decide), hno 1 2 (by decide),
          hno 1 3 (by decide), hno 2 3 (by decide)⟩
        ⟨hreal 0, hreal 1, hreal 2, hreal 3⟩
    · obtain ⟨r, hr, h1, _⟩ := processBlock_order s b (hord ▸ hreal)
      exact ⟨r, hr, h1.trans hord⟩

/-- An instance of amended C5: the order Phase, Phase, Chorus, OverDrive is installed, and the
value-initialised order is not. -/
theorem invalid_order_adoption_witness :
    (∃ r, ((bypassProcessor 2 2).pushOrder orderAABC).processBlock (oneSample 1) = some r
        ∧ r.1.dspOrder = orderAABC)
      ∧ ((bypassProcessor 2 2).pushOrder DSP_Order.valueInit).adoptLatestOrder.dspOrder
          = orderABCD :=
  ⟨(((invalid_order_adoption ((bypassProcessor 2 2).pushOrder orderAABC) (oneSample 1) orderAABC
      (by decide) (by decide)).2 (by decide)).2 (by decide)).2,
    ((invalid_order_adoption ((bypassProcessor 2 2).pushOrder DSP_Order.valueInit) (oneSample 1)
      DSP_Order.valueInit (by decide) (by decide)).1 rfl).1⟩

/-- C6 (channel clearing): with `i` input and `o` output channels, the clearing step of
`processBlock` sets every sample of every channel `c` with `i ≤ c < o` to zero and leaves every
sample of the channels `c < i` unchanged, and the chain runs on the cleared block: the first
`process` call of the chain receives it. -/
theorem channel_clearing [Zero α] {nc ns : Nat} (s : Audio_PluginAudioProcessor Ph Dl Ch Lf)
    (b : AudioBuffer α nc ns) :
    (∀ (c : Fin nc) (k : Fin ns),
        s.totalNumInputChannels ≤ c.val → c.val < s.totalNumOutputChannels →
          s.clearExtraChannels b c k = 0)
      ∧ (∀ (c : Fin nc) (k : Fin ns),
        c.val < s.totalNumInputChannels → s.clearExtraChannels b c k = b c k)
      ∧ s.processBlock b
          = s.adoptLatestOrder.runChain (resolvePointers s.adoptLatestOrder.dspOrder)
              (s.clearExtraChannels b)
      ∧ ∀ m : Fin 4 → SlotRef, (∀ i, s.adoptLatestOrder.dspOrder i = (m i).kind) →
          s.processBlock b
            = some (Audio_PluginAudioProcessor.link (m 3) (Audio_PluginAudioProcessor.link (m 2)
                (Audio_PluginAudioProcessor.link (m 1)
                  (Audio_PluginAudioProcessor.link (m 0)
                    (s.adoptLatestOrder, s.clearExtraChannels b))))) := by
  refine ⟨fun c k h1 h2 => ?_, fun c k h1 => ?_, rfl, fun m hm => processBlock_some s b m hm⟩
  · unfold Audio_PluginAudioProcessor.clearExtraChannels
    rw [clearChannels_apply, if_pos (List.Ico.mem.mpr ⟨h1, h2⟩)]
  · unfold Audio_PluginAudioProcessor.clearExtraChannels
    rw [clearChannels_apply, if_neg]
    intro hmem
    have := (List.Ico.mem.mp hmem).1
    omega

/-- The scenario of the specification for C6: one input channel and two output channels; the
second channel of a two-channel block is all zero when the chain starts, and the first is
unchanged. -/
theorem channel_clearing_witness :
    ((bypassProcessor 1 2).clearExtraChannels (![![5, 6], ![7, 8]] : AudioBuffer ℤ 2 2) 1 0 = 0
        ∧ (bypassProcessor 1 2).clearExtraChannels (![![5, 6], ![7, 8]] : AudioBuffer ℤ 2 2) 1 1
            = 0)
      ∧ ((bypassProcessor 1 2).clearExtraChannels (![![5, 6], ![7, 8]] : AudioBuffer ℤ 2 2) 0 0 = 5
        ∧ (bypassProcessor 1 2).clearExtraChannels (![![5, 6], ![7, 8]] : AudioBuffer ℤ 2 2) 0 1
            = 6) :=
  ⟨⟨(channel_clearing (bypassProcessor 1 2) (![![5, 6], ![7, 8]] : AudioBuffer ℤ 2 2)).1 1 0
        (by decide) (by decide),
      (channel_clearing (bypassProcessor 1 2) (![![5, 6], ![7, 8]] : AudioBuffer ℤ 2 2)).1 1 1
        (by decide) (by decide)⟩,
    ⟨(channel_clearing (bypassProcessor 1 2) (![![5, 6], ![7, 8]] : AudioBuffer ℤ 2 2)).2.1 0 0
        (by decide),
      (channel_clearing (bypassProcessor 1 2) (![![5, 6], ![7, 8]] : AudioBuffer ℤ 2 2)).2.1 0 1
        (by decide)⟩⟩

/-- C3 (sequential processing): let the active order `O`, the order in force once the drain step
is done, be a permutation of the four kinds, and let `m i` be the slot kept for the kind `O[i]`.
Then `processBlock` completes and the final block is the left-to-right composition of the four
members' `DSP_Choice::process` functions in the order `O`, applied to the block with the
surplus channels cleared.  Every slot is among the four exactly once, and the member at
position `i` ends in the state that its own `process` returns on the block the positions
before it produced, so it was run once, on the previous slot's output; `delay` is untouched. -/
theorem sequential_processing [Zero α] {nc ns : Nat} (s : Audio_PluginAudioProcessor Ph Dl Ch Lf)
    (b : AudioBuffer α nc ns) (O : DSP_Order) (hactive : s.adoptLatestOrder.dspOrder = O)
    (hO : O.isPermutation) (m : Fin 4 → SlotRef) (hm : ∀ i, O i = (m i).kind) :
    Function.Bijective m
      ∧ ∃ r, s.processBlock b = some r
        ∧ r.2 = s.slotProcess (m 3) (s.slotProcess (m 2) (s.slotProcess (m 1)
                  (s.slotProcess (m 0) (s.clearExtraChannels b))))
        ∧ (∀ i : Fin 4,
            (m i = SlotRef.phaser →
              r.1.phaser = (s.phaser.process (s.chainInputs m (s.clearExtraChannels b) i)).1)
            ∧ (m i = SlotRef.chorus →
              r.1.chorus = (s.chorus.process (s.chainInputs m (s.clearExtraChannels b) i)).1)
            ∧ (m i = SlotRef.overdrive →
              r.1.overdrive
                = (s.overdrive.process (s.chainInputs m (s.clearExtraChannels b) i)).1)
            ∧ (m i = SlotRef.ladderFilter →
              r.1.ladderFilter
                = (s.ladderFilter.process (s.chainInputs m (s.clearExtraChannels b) i)).1))
        ∧ r.1.delay = s.delay := by
  have hinj := slots_injective O hO m hm
  have hbij : Function.Bijective m :=
    (Fintype.bijective_iff_injective_and_card m).mpr ⟨hinj, by decide⟩
  obtain ⟨hph, hch, hod, hlf, hdl⟩ := adoptLatestOrder_members s
  have hin : ∀ i, s.adoptLatestOrder.chainInputs m (s.clearExtraChannels b) i
      = s.chainInputs m (s.clearExtraChannels b) i := by
    intro i
    unfold Audio_PluginAudioProcessor.chainInputs
    simp only [adoptLatestOrder_slotProcess]
  refine ⟨hbij, _, processBlock_some s b m (fun i => by rw [hactive, hm i]), ?_, ?_, ?_⟩
  · rw [chain_buffer m hinj]
    simp only [adoptLatestOrder_slotProcess]
  · intro i
    have hst := chain_member_states m hinj s.adoptLatestOrder (s.clearExtraChannels b) i
    rw [hin i, hph, hch, hod, hlf] at hst
    exact hst
  · simp only [(link_members _ _).2.2.2.2, hdl]

/-- An instance of C3: gain on the phaser slot, clipping on the chorus slot, active order Phase,
Chorus, OverDrive, LadderFilter, and the one-sample block 3.  The sample is doubled to 6 and
then clipped to 1, so the call returns the block 1. -/
theorem sequential_processing_witness :
    ∃ r, (gainClipProcessor orderABCD).processBlock (oneSample 3) = some r
      ∧ r.2 = oneSample 1 := by
  obtain ⟨_, r, hr, hb, _⟩ := sequential_processing (gainClipProcessor orderABCD) (oneSample 3)
    orderABCD
    (congrArg Audio_PluginAudioProcessor.dspOrder
      (adoptLatestOrder_empty (gainClipProcessor orderABCD) rfl))
    (by decide) ![SlotRef.phaser, SlotRef.chorus, SlotRef.overdrive, SlotRef.ladderFilter]
    (by decide)
  refine ⟨r, hr, hb.trans ?_⟩
  funext c k
  rfl

/-- C10 (order sensitivity).  First part: with a gain stage on the phaser slot and a clipping
stage on the chorus slot, two behaviours that do not commute, the valid orders Phase, Chorus,
OverDrive, LadderFilter and Chorus, Phase, OverDrive, LadderFilter, which differ by the swap of
those two kinds, give different output blocks for the same input block.  Second part: for any
modules, any valid order `O` and two adjacent positions `i`, `j = i + 1`, when the process
functions of the slots at those positions commute on every block, `processBlock` under the
active order `O` and under `O` with the two positions swapped give equal output blocks. -/
theorem order_sensitivity :
    (orderABCD.isPermutation ∧ orderBACD.isPermutation
        ∧ orderBACD = orderABCD ∘ Equiv.swap 0 1
        ∧ (gainClipProcessor orderABCD).slotProcess SlotRef.chorus
              ((gainClipProcessor orderABCD).slotProcess SlotRef.phaser (oneSample 1))
            ≠ (gainClipProcessor orderABCD).slotProcess SlotRef.phaser
                ((gainClipProcessor orderABCD).slotProcess SlotRef.chorus (oneSample 1))
        ∧ ∃ r r1, (gainClipProcessor orderABCD).processBlock (oneSample 1) = some r
            ∧ (gainClipProcessor orderBACD).processBlock (oneSample 1) = some r1
            ∧ r.2 ≠ r1.2)
      ∧ ∀ (Ph Dl Ch Lf α : Type) [DspModule Ph α] [DspModule Ch α] [DspModule Lf α] [Zero α]
          (nc ns : Nat) (s : Audio_PluginAudioProcessor Ph Dl Ch Lf) (b : AudioBuffer α nc ns)
          (O : DSP_Order) (i j : Fin 4) (ma mb : SlotRef),
          s.dspOrderFifo.items = [] → O.isPermutation → i.val + 1 = j.val →
          O i = ma.kind → O j = mb.kind →
          (∀ x : AudioBuffer α nc ns,
            s.slotProcess ma (s.slotProcess mb x) = s.slotProcess mb (s.slotProcess ma x)) →
          DSP_Order.isPermutation (O ∘ Equiv.swap i j)
            ∧ ∃ r r1,
              ({ s with dspOrder := O } : Audio_PluginAudioProcessor Ph Dl Ch Lf).processBlock b
                  = some r
              ∧ ({ s with dspOrder := O ∘ Equiv.swap i j } :
                  Audio_PluginAudioProcessor Ph Dl Ch Lf).processBlock b = some r1
              ∧ r.2 = r1.2 := by
  constructor
  · refine ⟨by decide, by decide, by decide, ?_, ?_⟩
    · intro h
      exact absurd (congrFun (congrFun h 0) 0) (by decide)
    · have h1 := processBlock_buffer (gainClipProcessor orderABCD) (oneSample 1)
        (by rw [adoptLatestOrder_empty _ rfl]; decide)
        ![SlotRef.phaser, SlotRef.chorus, SlotRef.overdrive, SlotRef.ladderFilter]
        (by rw [adoptLatestOrder_empty _ rfl]; decide)
      have h2 := processBlock_buffer (gainClipProcessor orderBACD) (oneSample 1)
        (by rw [adoptLatestOrder_empty _ rfl]; decide)
        ![SlotRef.chorus, SlotRef.phaser, SlotRef.overdrive, SlotRef.ladderFilter]
        (by rw [adoptLatestOrder_empty _ rfl]; decide)
      obtain ⟨r, hr, hb⟩ := h1
      obtain ⟨r1, hr1, hb1⟩ := h2
      refine ⟨r, r1, hr, hr1, ?_⟩
      rw [hb, hb1]
      intro h
      exact absurd (congrFun (congrFun h 0) 0) (by decide)
  · intro Ph Dl Ch Lf α _ _ _ _ nc ns s b O i j ma mb hempty hO hadj hma hmb hcomm
    obtain ⟨m, hm⟩ := allReal_exists_slots O (isPermutation_allReal O hO)
    have hmi : m i = ma := kind_injective ((hm i).symm.trans hma)
    have hmj : m j = mb := kind_injective ((hm j).symm.trans hmb)
    have hO1 := isPermutation_comp_swap O hO i j
    have h1 := processBlock_buffer
      ({ s with dspOrder := O } : Audio_PluginAudioProcessor Ph Dl Ch Lf) b
      (by rw [withOrder_adopt s O hempty]; exact hO) m
      (by rw [withOrder_adopt s O hempty]; exact hm)
    have h2 := processBlock_buffer
      ({ s with dspOrder := O ∘ Equiv.swap i j } : Audio_PluginAudioProcessor Ph Dl Ch Lf) b
      (by rw [withOrder_adopt s _ hempty]; exact hO1) (m ∘ Equiv.swap i j)
      (by rw [withOrder_adopt s _ hempty]; exact fun k => hm _)
    obtain ⟨r, hr, hb⟩ := h1
    obtain ⟨r1, hr1, hb1⟩ := h2
    refine ⟨hO1, r, r1, hr, hr1, ?_⟩
    rw [hb, hb1]
    simp only [withOrder_slotProcess]
    have hcl : Audio_PluginAudioProcessor.clearExtraChannels
          ({ s with dspOrder := O ∘ Equiv.swap i j } : Audio_PluginAudioProcessor Ph Dl Ch Lf) b
        = Audio_PluginAudioProcessor.clearExtraChannels
          ({ s with dspOrder := O } : Audio_PluginAudioProcessor Ph Dl Ch Lf) b := rfl
    rw [hcl]
    exact (chain_swap_adjacent (fun k x => s.slotProcess k x) m i j hadj
      (by rw [hmi, hmj]; exact hcomm) _).symm

/-- An instance of the second part of C10: the overdrive and ladder-filter slots of the
gain-and-clip processor both leave the block as it is, so they commute, and swapping the last
two positions of the order does not change the output. -/
theorem order_sensitivity_witness :
    DSP_Order.isPermutation (orderABCD ∘ Equiv.swap 2 3)
      ∧ ∃ r r1,
        ({ gainClipProcessor orderABCD with dspOrder := orderABCD } :
            Audio_PluginAudioProcessor GainStage Bypass ClipStage Bypass).processBlock
              (oneSample 1) = some r
        ∧ ({ gainClipProcessor orderABCD with dspOrder := orderABCD ∘ Equiv.swap 2 3 } :
            Audio_PluginAudioProcessor GainStage Bypass ClipStage Bypass).processBlock
              (oneSample 1) = some r1
        ∧ r.2 = r1.2 :=
  order_sensitivity.2 GainStage Bypass ClipStage Bypass ℤ 1 1 (gainClipProcessor orderABCD)
    (oneSample 1) orderABCD 2 3 SlotRef.overdrive SlotRef.ladderFilter rfl (by decide)
    (by decide) (by decide) (by decide) (fun _ => rfl)

/-- C4 fails on the code: `prepareToPlay` returns the processor unchanged, so it prepares no
slot.  On a freshly constructed processor of probe modules, with the order Phase, Chorus,
OverDrive, LadderFilter pushed, the host calls `prepareToPlay (44100, 512)` and then
`processBlock`: each of the four slots has had `process` called once and `prepare` never. -/
theorem prepare_before_process_fails :
    (∀ (s : Audio_PluginAudioProcessor Probe Probe Probe Probe) (sampleRate : ℚ)
        (samplesPerBlock : Int), s.prepareToPlay sampleRate samplesPerBlock = s)
      ∧ ((((freshProbeProcessor.pushOrder orderABCD).prepareToPlay 44100 512).processBlock
            (oneSample 1)).map
          (fun r => (r.1.phaser.dsp, r.1.chorus.dsp, r.1.overdrive.dsp, r.1.ladderFilter.dsp))
        = some ({ preparedWith := none, processCalls := 1, unpreparedCalls := 1 },
                { preparedWith := none, processCalls := 1, unpreparedCalls := 1 },
                { preparedWith := none, processCalls := 1, unpreparedCalls := 1 },
                { preparedWith := none, processCalls := 1, unpreparedCalls := 1 })) := by
  refine ⟨fun _ _ _ => rfl, ?_⟩
  have hord : ((freshProbeProcessor.pushOrder orderABCD).prepareToPlay
      44100 512).adoptLatestOrder.dspOrder = orderABCD := by
    rw [adoptLatestOrder_dspOrder]
    decide
  rw [processBlock_some _ _
    ![SlotRef.phaser, SlotRef.chorus, SlotRef.overdrive, SlotRef.ladderFilter]
    (by rw [hord]; decide)]
  unfold Audio_PluginAudioProcessor.adoptLatestOrder
  simp only [drainLoop_fifo]
  rfl

/-- C7 fails on the code: the constructor gives `dspOrder` no value and the drain step of the
first call installs none, so the first `processBlock` runs with whatever the storage of
`dspOrder` held.  With zero-filled storage that is Phase four times, which is not a
permutation: the phaser slot is processed four times and the other three slots never. -/
theorem default_order_undefined :
    (∀ (uninitialised : DSP_Order) (fifoCapacity : Nat),
        (Audio_PluginAudioProcessor.construct uninitialised fifoCapacity :
            Audio_PluginAudioProcessor Probe Probe Probe Probe).adoptLatestOrder.dspOrder
          = uninitialised)
      ∧ ¬ DSP_Order.valueInit.isPermutation
      ∧ (freshProbeProcessor.processBlock (oneSample 1)).map
          (fun r => (r.1.dspOrder, r.1.phaser.dsp.processCalls, r.1.chorus.dsp.processCalls,
            r.1.overdrive.dsp.processCalls, r.1.ladderFilter.dsp.processCalls))
        = some (DSP_Order.valueInit, 4, 0, 0, 0) := by
  refine ⟨fun u c => ?_, by decide, ?_⟩
  · rw [adoptLatestOrder_empty _ rfl]
    rfl
  · rw [processBlock_some freshProbeProcessor (oneSample 1) (fun _ => SlotRef.phaser)
      (by rw [adoptLatestOrder_empty _ rfl]; intro i; rfl)]
    rw [adoptLatestOrder_empty _ rfl]
    rfl

end Claims

end AudioPlugin
